import Mathlib

set_option maxRecDepth 100000
set_option maxHeartbeats 1000000

/-
Verification of the qubes-firewall service (qubesagent/firewall.py).

The development shallowly embeds the rule pipeline of the firewall daemon:
the config reader (read_rules), the two backend translators
(IptablesWorker.prepare_rules and NftablesWorker.prepare_rules), chain
naming, the apply path (apply_rules_family over a model of the kernel
packet-filter state driven by the documented behaviour of the external
iptables/nft tools), and the per-address error handling (handle_addr).

Python strings are modelled as Lean String values; the handful of Python
string operations used by the source (split, replace with single-char
arguments, upper, negative-index slicing) are re-implemented structurally
so that they evaluate inside the kernel.  Python dicts of strings are
modelled as association lists with last-binding lookup, and Python sets
as deduplicated lists together with, where the iteration order of a set
is observable in the output, an explicit enumeration oracle.
-/

namespace QubesFirewall

/-! ## Python string primitives -/

/-- Auxiliary worker for character-separated splitting (Python str.split
with an explicit single-character separator: empty pieces are kept). -/
def pySplitAux (sep : Char) : List Char → List Char → List (List Char)
  | [], acc => [acc.reverse]
  | c :: cs, acc =>
    if c = sep then acc.reverse :: pySplitAux sep cs []
    else pySplitAux sep cs (c :: acc)

/-- Python s.split(sep) for a single-character separator. -/
def pySplit (sep : Char) (s : String) : List String :=
  (pySplitAux sep s.data []).map List.asString

/-- Python s.replace(a, b) for single characters. -/
def replaceChar (s : String) (a b : Char) : String :=
  ⟨s.data.map fun c => if c = a then b else c⟩

/-- Python s[-n:] (the last n characters; the whole string when shorter). -/
def takeLast (n : Nat) (s : String) : String :=
  ⟨s.data.drop (s.data.length - n)⟩

/-- Python s.upper() on the ASCII action keywords used by the source. -/
def upperStr (s : String) : String :=
  ⟨s.data.map Char.toUpper⟩

/-- The check len(ruleno) == 4 and ruleno.isdigit() from read_rules
(restricted, as in the spec, to ASCII digits). -/
def fourDigitB (s : String) : Bool :=
  s.length == 4 && s.data.all Char.isDigit

/-- Python s.count(c) > 0, used by is_ip6. -/
def containsChar (s : String) (c : Char) : Bool :=
  s.data.any (· == c)

/-- Strict lexicographic comparison of character lists by code point,
the order Python uses when sorting strings. -/
def lexLt : List Char → List Char → Bool
  | [], [] => false
  | [], _ :: _ => true
  | _ :: _, [] => false
  | a :: as, b :: bs =>
    if a = b then lexLt as bs
    else decide (a.toNat < b.toNat)

/-- Non-strict string comparison (negation of the flipped strict one). -/
def strLe (a b : String) : Bool :=
  !(lexLt b.data a.data)

/-- The non-strict string order as a proposition, for use with sorting. -/
def StrLeR (a b : String) : Prop :=
  strLe a b = true

instance : DecidableRel StrLeR := fun a b =>
  inferInstanceAs (Decidable (strLe a b = true))

/-- Python sorted(...) on a list of strings. -/
def sortedStr (l : List String) : List String :=
  List.insertionSort StrLeR l

/-- The pair order used by sorted(entries.items()) in read_rules:
keys first, values break ties. -/
def PairLeR (a b : String × String) : Prop :=
  (lexLt a.1.data b.1.data || (a.1 == b.1 && strLe a.2 b.2)) = true

instance : DecidableRel PairLeR := fun a b =>
  inferInstanceAs
    (Decidable ((lexLt a.1.data b.1.data || (a.1 == b.1 && strLe a.2 b.2)) = true))

/-- Python sorted(entries.items()). -/
def sortEntries (l : List (String × String)) : List (String × String) :=
  List.insertionSort PairLeR l

/-! ## Errors and rules -/

/-- The exceptions that can escape the rule pipeline.  parseError and
applyError are the two exception classes defined by the source
(RuleParseError, RuleApplyError); valueError models the ValueError that
dict(...) raises on a malformed k=v token; keyError models the KeyError
of a missing mandatory dict key; calledProcessError models an uncaught
subprocess.CalledProcessError.  Message payloads are not modelled. -/
inductive FwError where
  | parseError
  | applyError
  | valueError
  | keyError
  | calledProcessError
deriving DecidableEq, Repr

deriving instance DecidableEq for Except

/-- A rule: the Python dict mapping option names to string values,
represented as the association list of its insertions. -/
abbrev Rule := List (String × String)

/-- Python dict lookup (later insertions shadow earlier ones). -/
def rget (r : Rule) (k : String) : Option String :=
  (r.reverse.find? (fun p => p.1 == k)).map (·.2)

/-- The closed option set supported_rule_opts (identical on both
backends). -/
def supportedOpts : List String :=
  ["action", "proto", "dst4", "dst6", "dsthost", "dstports",
   "specialtarget", "icmptype"]

/-! ## Config reader: FirewallWorker.read_rules -/

/-- One token of a rule value: elem.split(hyphen-free =) must have exactly
two pieces or dict(...) raises ValueError. -/
def kvOfToken (t : String) : Except FwError (String × String) :=
  match pySplit '=' t with
  | [k, v] => .ok (k, v)
  | _ => .error .valueError

/-- The lazy consumption of the k=v generator by dict(...): the first
malformed token raises. -/
def parseKVLoop : List String → Except FwError Rule
  | [] => .ok []
  | t :: ts =>
    match kvOfToken t with
    | .error e => .error e
    | .ok kv =>
      match parseKVLoop ts with
      | .error e => .error e
      | .ok rest => .ok (kv :: rest)

/-- dict(elem.split(eq) for elem in rule.split(space)). -/
def parseRuleStr (v : String) : Except FwError Rule :=
  parseKVLoop (pySplit ' ' v)

/-- The per-entry step of the read_rules loop: identifier check, value
parsing, action check. -/
def readRulesEntry (e : String × String) : Except FwError Rule :=
  if !(fourDigitB e.1) then .error .parseError
  else
    match parseRuleStr e.2 with
    | .error err => .error err
    | .ok rd =>
      if (rget rd "action").isNone then .error .parseError
      else .ok rd

/-- The for-loop of read_rules over the sorted entries. -/
def readRulesLoop : List (String × String) → Except FwError (List Rule)
  | [] => .ok []
  | e :: rest =>
    match readRulesEntry e with
    | .error err => .error err
    | .ok r =>
      match readRulesLoop rest with
      | .error err => .error err
      | .ok rs => .ok (r :: rs)

/-- FirewallWorker.read_rules, applied to the leaf-keyed entries read
from QubesDB for one source address. -/
def read_rules (entries : List (String × String)) : Except FwError (List Rule) :=
  match rget entries "policy" with
  | none => .error .parseError
  | some policy =>
    match readRulesLoop (sortEntries (entries.filter (fun e => e.1 != "policy"))) with
    | .error err => .error err
    | .ok rules => .ok (rules ++ [[("action", policy)]])

/-- FirewallWorker.is_ip6. -/
def is_ip6 (addr : String) : Bool :=
  containsChar addr ':'

/-! ## Legacy backend: IptablesWorker

The resolver (socket.getaddrinfo restricted to one family) is passed in
as a function from host name to an optional address list; none models a
gaierror.  The nameserver list (dns_addresses over /etc/resolv.conf,
already suffixed with the full-host mask) is passed in as a list. -/

/-- IptablesWorker.chain_for_addr. -/
def iptChainForAddr (addr : String) : String :=
  "qbs-" ++ takeLast 20 (replaceChar (replaceChar addr '.' '-') ':' '-')

/-- The full-host mask appended to resolved addresses. -/
def fullmaskOf (family : Nat) : String :=
  if family == 6 then "/128" else "/32"

/-- The intermediate per-rule selector data of
IptablesWorker.prepare_rules just before the emission loops: the
variables protos, dsthosts, dstports, icmptype.  none means the rule
imposes no constraint in that dimension. -/
structure IptParts where
  protos : Option (List String)
  dsthosts : Option (List String)
  dstports : Option String
  icmptype : Option String
deriving DecidableEq, Repr

/-- The shared leading checks of both prepare_rules implementations:
unknown options and family/destination mismatches raise RuleParseError. -/
def ruleChecks (family : Nat) (rule : Rule) : Except FwError Unit :=
  if rule.any (fun p => !(supportedOpts.contains p.1)) then .error .parseError
  else if (rget rule "dst4").isSome && family == 6 then .error .parseError
  else if (rget rule "dst6").isSome && family == 4 then .error .parseError
  else .ok ()

/-- The protos variable of IptablesWorker.prepare_rules (before the
specialtarget handling): a one-element list, with icmp translated to
icmpv6 on the IPv6 family. -/
def iptProtosOf (family : Nat) (rule : Rule) : Option (List String) :=
  match rget rule "proto" with
  | some p => some [if p == "icmp" && family == 6 then "icmpv6" else p]
  | none => none

/-- The dsthosts variable of prepare_rules (before the specialtarget
handling): dst4, then dst6, then the resolved dsthost (a Python set,
modelled as the deduplicated list of resolver results suffixed with the
full-host mask).  A failed resolution raises RuleParseError. -/
def dsthostsOf (resolve : String → Option (List String)) (family : Nat)
    (rule : Rule) : Except FwError (Option (List String)) :=
  match rget rule "dst4" with
  | some v => .ok (some [v])
  | none =>
    match rget rule "dst6" with
    | some v => .ok (some [v])
    | none =>
      match rget rule "dsthost" with
      | some h =>
        match resolve h with
        | none => .error .parseError
        | some addrs => .ok (some ((addrs.map (· ++ fullmaskOf family)).dedup))
      | none => .ok none

/-- The body of the per-rule loop of IptablesWorker.prepare_rules up to
(and including) the specialtarget handling.  .ok none models a
continue (the rule is silently skipped). -/
def iptRuleParts (dns : List String) (resolve : String → Option (List String))
    (family : Nat) (rule : Rule) : Except FwError (Option IptParts) :=
  match ruleChecks family rule with
  | .error e => .error e
  | .ok _ =>
    match dsthostsOf resolve family rule with
    | .error e => .error e
    | .ok dsthosts =>
      let protos := iptProtosOf family rule
      let dstports := (rget rule "dstports").map (fun s => replaceChar s '-' ':')
      let icmptype := rget rule "icmptype"
      if rget rule "specialtarget" == some "dns" then
        if dstports != none && dstports != some "53:53" then
          .ok none
        else if dns.isEmpty then
          .ok none
        else
          .ok (some ⟨some (match protos with
              | some l => ["tcp", "udp"].filter (fun x => decide (x ∈ l))
              | none => ["tcp", "udp"]),
            some (match dsthosts with
              | some l => dns.dedup.filter (fun x => decide (x ∈ l))
              | none => dns),
            some "53:53", icmptype⟩)
      else
        .ok (some ⟨protos, dsthosts, dstports, icmptype⟩)

/-- One emitted iptables rule specification (the text of the -A line
after the chain name). -/
def iptSpecOne (dsthost proto dstports icmptype : Option String)
    (action : String) : String :=
  (match dsthost with | some d => " -d " ++ d | none => "")
    ++ (match proto with | some p => " -p " ++ p | none => "")
    ++ (match dstports with | some dp => " --dport " ++ dp | none => "")
    ++ (match icmptype with | some t => " --icmp-type " ++ t | none => "")
    ++ " -j " ++ upperStr action

/-- The iteration lists of the emission loops: None becomes the single
iterate, a real list is sorted (Python sorted over a set or a
one-element list). -/
def optIter (l : Option (List String)) : List (Option String) :=
  match l with
  | none => [none]
  | some xs => (sortedStr xs).map some

/-- The two nested emission loops for one rule (for proto in
sorted(protos): for dsthost in sorted(dsthosts)); accessing the missing
action key raises KeyError. -/
def iptEmitRule (rule : Rule) (parts : IptParts) : Except FwError (List String) :=
  match rget rule "action" with
  | none => .error .keyError
  | some act => .ok (
      (optIter parts.protos).flatMap (fun proto =>
        (optIter parts.dsthosts).map (fun dsthost =>
          iptSpecOne dsthost proto parts.dstports parts.icmptype act)))

/-- The rule specifications emitted by IptablesWorker.prepare_rules for
a rule list, in order (each one still without the -A and chain-name
prefix). -/
def iptRuleSpecs (dns : List String) (resolve : String → Option (List String))
    (family : Nat) : List Rule → Except FwError (List String)
  | [] => .ok []
  | r :: rs =>
    match iptRuleParts dns resolve family r with
    | .error e => .error e
    | .ok none =>
      match iptRuleSpecs dns resolve family rs with
      | .error e => .error e
      | .ok rest => .ok rest
    | .ok (some p) =>
      match iptEmitRule r p with
      | .error e => .error e
      | .ok lines =>
        match iptRuleSpecs dns resolve family rs with
        | .error e => .error e
        | .ok rest => .ok (lines ++ rest)

/-- The full -A lines of the iptables-restore program for one chain. -/
def iptLines (chain : String) (specs : List String) : List String :=
  specs.map (fun s => "-A " ++ chain ++ s)

/-- IptablesWorker.prepare_rules: the textual iptables-restore input. -/
def iptProgram (chain : String) (dns : List String)
    (resolve : String → Option (List String)) (family : Nat)
    (rules : List Rule) : Except FwError String :=
  match iptRuleSpecs dns resolve family rules with
  | .error e => .error e
  | .ok specs =>
    .ok ("*filter\n"
      ++ String.join ((iptLines chain specs).map (· ++ "\n"))
      ++ "COMMIT\n")

/-! ## Modern backend: NftablesWorker

The iteration order of a Python set of strings is not fixed across
interpreter runs; where prepare_rules joins a set directly into the
output (the daddr set of a resolved dsthost) the order is supplied by an
enumeration oracle enumSet, which a faithful run instantiates with some
permutation function. -/

/-- NftablesWorker.chain_for_addr (no truncation). -/
def nftChainForAddr (addr : String) : String :=
  "qbs-" ++ replaceChar (replaceChar addr '.' '-') ':' '-'

/-- The ip_match keyword. -/
def ipMatchOf (family : Nat) : String :=
  if family == 6 then "ip6" else "ip"

/-- The dstports value of NftablesWorker.prepare_rules: a range whose
pieces are all equal collapses to its first piece. -/
def nftCollapsePorts (dp : String) : String :=
  if ((pySplit '-' dp).dedup.length == 1) then (pySplit '-' dp).headD "" else dp

/-- The proto selector fragment of one nft rule. -/
def nftProtoPart (family : Nat) (rule : Rule) : String :=
  match rget rule "proto" with
  | some p =>
    if family == 4 then " ip protocol " ++ p
    else " ip6 nexthdr " ++ (if p == "icmp" then "icmpv6" else p)
  | none => ""

/-- The destination selector fragment of one nft rule (dst4, dst6, or
the resolved dsthost set joined in the iteration order supplied by
enumSet). -/
def nftDstPart (enumSet : List String → List String)
    (resolve : String → Option (List String)) (family : Nat) (rule : Rule) :
    Except FwError String :=
  match rget rule "dst4" with
  | some v => .ok (" ip daddr " ++ v)
  | none =>
    match rget rule "dst6" with
    | some v => .ok (" ip6 daddr " ++ v)
    | none =>
      match rget rule "dsthost" with
      | some h =>
        match resolve h with
        | none => .error .parseError
        | some addrs =>
          .ok (" " ++ ipMatchOf family ++ " daddr \x7b "
            ++ String.intercalate ", "
                (enumSet ((addrs.map (· ++ fullmaskOf family)).dedup))
            ++ " \x7d")
      | none => .ok ""

/-- The icmptype selector fragment of one nft rule. -/
def nftIcmpPart (family : Nat) (rule : Rule) : String :=
  match rget rule "icmptype" with
  | some t =>
    if family == 4 then " icmp type " ++ t
    else if family == 6 then " icmpv6 type " ++ t
    else ""
  | none => ""

/-- The selector prefix (the nft_rule accumulator) and the dstports
value of one rule of NftablesWorker.prepare_rules, after the
specialtarget handling and the icmptype fragment; .ok none models a
continue (the rule is silently skipped). -/
def nftRuleCore (enumSet : List String → List String) (dns : List String)
    (resolve : String → Option (List String)) (family : Nat) (rule : Rule) :
    Except FwError (Option (String × Option String)) :=
  match ruleChecks family rule with
  | .error e => .error e
  | .ok _ =>
    match nftDstPart enumSet resolve family rule with
    | .error e => .error e
    | .ok dstPart =>
      let protoPart := nftProtoPart family rule
      let dstports := (rget rule "dstports").map nftCollapsePorts
      if rget rule "specialtarget" == some "dns" then
        if dstports != none && dstports != some "53" then
          .ok none
        else if dns.isEmpty then
          .ok none
        else
          let dnsPart := " " ++ ipMatchOf family ++ " daddr \x7b "
            ++ String.intercalate ", " dns ++ " \x7d"
          .ok (some (protoPart ++ dstPart ++ dnsPart ++ nftIcmpPart family rule,
            some "53"))
      else
        .ok (some (protoPart ++ dstPart ++ nftIcmpPart family rule, dstports))

/-- The tcp/udp duplication at the end of the per-rule loop of
NftablesWorker.prepare_rules; accessing a missing action raises
KeyError. -/
def nftExpand (rule : Rule) (base : String) (dstports : Option String) :
    Except FwError (List String) :=
  match rget rule "action" with
  | none => .error .keyError
  | some act =>
    match dstports with
    | some dp =>
      match rget rule "proto" with
      | none => .ok [base ++ " tcp dport " ++ dp ++ " " ++ act,
                     base ++ " udp dport " ++ dp ++ " " ++ act]
      | some p => .ok [base ++ " " ++ p ++ " dport " ++ dp ++ " " ++ act]
    | none => .ok [base ++ " " ++ act]

/-- The nft rule lines contributed by one rule (none when the rule is
skipped). -/
def nftRuleLines (enumSet : List String → List String) (dns : List String)
    (resolve : String → Option (List String)) (family : Nat) (rule : Rule) :
    Except FwError (Option (List String)) :=
  match nftRuleCore enumSet dns resolve family rule with
  | .error e => .error e
  | .ok none => .ok none
  | .ok (some (base, dstports)) =>
    match nftExpand rule base dstports with
    | .error e => .error e
    | .ok lines => .ok (some lines)

/-- The nft_rules list accumulated by NftablesWorker.prepare_rules. -/
def nftRules (enumSet : List String → List String) (dns : List String)
    (resolve : String → Option (List String)) (family : Nat) :
    List Rule → Except FwError (List String)
  | [] => .ok []
  | r :: rs =>
    match nftRuleLines enumSet dns resolve family r with
    | .error e => .error e
    | .ok lines =>
      match nftRules enumSet dns resolve family rs with
      | .error e => .error e
      | .ok rest => .ok ((match lines with | none => [] | some l => l) ++ rest)

/-- NftablesWorker.prepare_rules: the textual nft transaction. -/
def nftProgram (chain : String) (enumSet : List String → List String)
    (dns : List String) (resolve : String → Option (List String))
    (family : Nat) (rules : List Rule) : Except FwError String :=
  match nftRules enumSet dns resolve family rules with
  | .error e => .error e
  | .ok rl =>
    let famS := if family == 6 then "ip6" else "ip"
    .ok ("flush chain " ++ famS ++ " qubes-firewall " ++ chain ++ "\n"
      ++ "table " ++ famS ++ " qubes-firewall \x7b\n"
      ++ "  chain " ++ chain ++ " \x7b\n"
      ++ "   " ++ String.intercalate "\n   " rl ++ "\n"
      ++ "  \x7d\n"
      ++ "\x7d\n")

/-! ## Kernel state and the apply path

The kernel packet-filter state reachable through the external tools is
modelled per address family as a partial map from chain name to the list
of rule specifications the chain holds.  The tool semantics follow the
documented behaviour of the collaborators: iptables -N fails on an
existing chain, -F fails on a missing chain, -I prepends a rule,
iptables-restore -n appends each -A line to its chain and leaves other
chains alone and fails on a missing chain; an nft transaction is
all-or-nothing, a chain declaration inside a table declaration creates
the chain if needed and appends the listed rules, and flushing a missing
chain fails the transaction. -/

/-- One address family of kernel filter state. -/
def Kern := String → Option (List String)

/-- Point update of a kernel map. -/
def kupd (k : Kern) (c : String) (v : Option (List String)) : Kern :=
  fun x => if x = c then v else k x

/-- The state owned by one worker: kernel state and the installed-chain
registry (self.chains) for each family. -/
structure WState where
  kern4 : Kern
  kern6 : Kern
  chains4 : List String
  chains6 : List String

/-- The kernel map of the given family. -/
def WState.kern (st : WState) (family : Nat) : Kern :=
  if family == 6 then st.kern6 else st.kern4

/-- Replace the kernel map of the given family. -/
def WState.setKern (st : WState) (family : Nat) (k : Kern) : WState :=
  if family == 6 then { st with kern6 := k } else { st with kern4 := k }

/-- The registry of the given family. -/
def WState.chains (st : WState) (family : Nat) : List String :=
  if family == 6 then st.chains6 else st.chains4

/-- Add a chain to the registry of the given family. -/
def WState.addChain (st : WState) (family : Nat) (c : String) : WState :=
  if family == 6 then { st with chains6 := c :: st.chains6 }
  else { st with chains4 := c :: st.chains4 }

/-- iptables-restore -n on a parsed list of (chain, spec) -A entries:
each entry is appended to its chain; a missing chain fails the whole
restore (nothing is applied). -/
def iptRestore : List (String × String) → Kern → Option Kern
  | [], k => some k
  | (c, s) :: rest, k =>
    match k c with
    | none => none
    | some l => iptRestore rest (kupd k c (some (l ++ [s])))

/-- IptablesWorker.create_chain: iptables -N chain (fails on an existing
chain), then iptables -I QBS-FORWARD -s addr -j chain (fails when the
top-level chain is missing); on success the chain is recorded in the
registry.  A failing command is an uncaught
subprocess.CalledProcessError. -/
def iptCreateChain (st : WState) (addr chain : String) (family : Nat) :
    WState × Option FwError :=
  let k := st.kern family
  if (k chain).isSome then
    (st, some .calledProcessError)
  else
    let k1 := kupd k chain (some [])
    match k1 "QBS-FORWARD" with
    | none => (st.setKern family k1, some .calledProcessError)
    | some fwd =>
      let jump := "-s " ++ addr ++ " -j " ++ chain
      let k2 := kupd k1 "QBS-FORWARD" (some (jump :: fwd))
      ((st.setKern family k2).addChain family chain, none)

/-- IptablesWorker.apply_rules_family: ensure the chain exists, prepare
the program, flush the chain, stream the program to the restore tool.
A flush or restore failure surfaces as RuleApplyError; a prepare failure
propagates; a create_chain failure propagates as CalledProcessError. -/
def iptApplyRulesFamily (dns : List String)
    (resolve : String → Option (List String)) (st : WState)
    (source : String) (rules : List Rule) (family : Nat) :
    WState × Option FwError :=
  let chain := iptChainForAddr source
  let createStep :=
    if (st.chains family).contains chain then (st, none)
    else iptCreateChain st source chain family
  match createStep with
  | (st1, some e) => (st1, some e)
  | (st1, none) =>
    match iptRuleSpecs dns resolve family rules with
    | .error e => (st1, some e)
    | .ok specs =>
      let k := st1.kern family
      match k chain with
      | none => (st1, some .applyError)
      | some _ =>
        let k1 := kupd k chain (some [])
        let st2 := st1.setKern family k1
        match iptRestore (specs.map (fun s => (chain, s))) k1 with
        | none => (st2, some .applyError)
        | some k2 => (st2.setKern family k2, none)

/-- IptablesWorker.apply_rules: family dispatch on the source address. -/
def iptApplyRules (dns : List String)
    (resolve : String → Option (List String)) (st : WState)
    (source : String) (rules : List Rule) : WState × Option FwError :=
  if is_ip6 source then iptApplyRulesFamily dns resolve st source rules 6
  else iptApplyRulesFamily dns resolve st source rules 4

/-- NftablesWorker.create_chain: one transaction declaring the per-SA
chain (a no-op when it exists) and appending the saddr jump to the
forward chain; the chain is recorded in the registry. -/
def nftCreateChain (st : WState) (addr chain : String) (family : Nat) :
    WState × Option FwError :=
  let k := st.kern family
  let k1 := if (k chain).isSome then k else kupd k chain (some [])
  let jump := (if family == 6 then "ip6" else "ip") ++ " saddr " ++ addr
    ++ " jump " ++ chain
  let k2 :=
    match k1 "forward" with
    | none => kupd k1 "forward" (some [jump])
    | some l => kupd k1 "forward" (some (l ++ [jump]))
  ((st.setKern family k2).addChain family chain, none)

/-- The flush-and-refill transaction submitted by
NftablesWorker.apply_rules_family: flushing a missing chain fails the
whole transaction (RuleApplyError, no state change); otherwise the
chain ends up holding exactly the new rules. -/
def nftApplyStep (st1 : WState) (chain : String) (family : Nat)
    (rl : List String) : WState × Option FwError :=
  match st1.kern family chain with
  | none => (st1, some .applyError)
  | some _ => (st1.setKern family (kupd (st1.kern family) chain (some rl)), none)

/-- NftablesWorker.apply_rules_family: ensure the chain exists, then
submit the flush-and-refill transaction. -/
def nftApplyRulesFamily (enumSet : List String → List String)
    (dns : List String) (resolve : String → Option (List String))
    (st : WState) (source : String) (rules : List Rule) (family : Nat) :
    WState × Option FwError :=
  let chain := nftChainForAddr source
  let st1 :=
    if (st.chains family).contains chain then st
    else (nftCreateChain st source chain family).1
  match nftRules enumSet dns resolve family rules with
  | .error e => (st1, some e)
  | .ok rl => nftApplyStep st1 chain family rl

/-- NftablesWorker.apply_rules: family dispatch on the source address. -/
def nftApplyRules (enumSet : List String → List String) (dns : List String)
    (resolve : String → Option (List String)) (st : WState)
    (source : String) (rules : List Rule) : WState × Option FwError :=
  if is_ip6 source then nftApplyRulesFamily enumSet dns resolve st source rules 6
  else nftApplyRulesFamily enumSet dns resolve st source rules 4

/-! ## FirewallWorker.handle_addr -/

/-- The fallback rule list installed on a per-address failure. -/
def fallbackRules : List Rule := [[("action", "drop")]]

/-- FirewallWorker.handle_addr over an abstract apply_rules
implementation applyFn (the subclass method) threading a state; the
second component of the result is the exception escaping handle_addr,
if any.  The first except clause catches RuleParseError (from read or
apply) and applies the fallback without protection, so a fallback
failure there propagates; the second catches RuleApplyError and retries
the fallback inside a try that swallows only RuleApplyError. -/
def handle_addr {σ : Type} (applyFn : σ → List Rule → σ × Option FwError)
    (readRes : Except FwError (List Rule)) (s : σ) : σ × Option FwError :=
  match readRes with
  | .ok rules =>
    match applyFn s rules with
    | (s1, none) => (s1, none)
    | (s1, some e) =>
      match e with
      | .parseError => applyFn s1 fallbackRules
      | .applyError =>
        match applyFn s1 fallbackRules with
        | (s2, some .applyError) => (s2, none)
        | (s2, e2) => (s2, e2)
      | other => (s1, some other)
  | .error e =>
    match e with
    | .parseError => applyFn s fallbackRules
    | other => (s, some other)

/-! ## Order facts about the string comparison -/

theorem lexLt_irrefl (l : List Char) : lexLt l l = false := by
  induction l with
  | nil => rfl
  | cons a as ih => simp [lexLt, ih]

theorem lexLt_trans {a b c : List Char} (hab : lexLt a b = true)
    (hbc : lexLt b c = true) : lexLt a c = true := by
  induction a generalizing b c with
  | nil =>
    cases b with
    | nil => simp [lexLt] at hab
    | cons y bs =>
      cases c with
      | nil => simp [lexLt] at hbc
      | cons z cs => simp [lexLt]
  | cons x as ih =>
    cases b with
    | nil => simp [lexLt] at hab
    | cons y bs =>
      cases c with
      | nil => simp [lexLt] at hbc
      | cons z cs =>
        simp only [lexLt] at hab hbc ⊢
        by_cases hxy : x = y
        · subst hxy
          simp only [if_pos rfl] at hab
          by_cases hyz : x = z
          · subst hyz
            simp only [if_pos rfl] at hbc ⊢
            exact ih hab hbc
          · simp only [if_neg hyz] at hbc ⊢
            exact hbc
        · simp only [if_neg hxy] at hab
          by_cases hyz : y = z
          · subst hyz
            simp only [if_neg hxy]
            exact hab
          · simp only [if_neg hyz] at hbc
            have h1 := of_decide_eq_true hab
            have h2 := of_decide_eq_true hbc
            have hxz : x ≠ z := by
              intro h
              subst h
              omega
            simp only [if_neg hxz]
            exact decide_eq_true (by omega)

theorem charToNat_inj {a b : Char} (h : a.toNat = b.toNat) : a = b :=
  Char.eq_of_val_eq (UInt32.toNat.inj h)

theorem lexLt_connex {a b : List Char} (hab : lexLt a b = false)
    (hba : lexLt b a = false) : a = b := by
  induction a generalizing b with
  | nil =>
    cases b with
    | nil => rfl
    | cons y bs => simp [lexLt] at hab
  | cons x as ih =>
    cases b with
    | nil => simp [lexLt] at hba
    | cons y bs =>
      simp only [lexLt] at hab hba
      by_cases hxy : x = y
      · subst hxy
        simp only [if_pos rfl] at hab hba
        rw [ih hab hba]
      · have hyx : y ≠ x := fun h => hxy h.symm
        simp only [if_neg hxy] at hab
        simp only [if_neg hyx] at hba
        have h1 := of_decide_eq_false hab
        have h2 := of_decide_eq_false hba
        exact absurd (charToNat_inj (by omega)) hxy

theorem stringData_inj {a b : String} (h : a.data = b.data) : a = b := by
  cases a; cases b; exact congrArg String.mk h

instance : IsTotal String StrLeR := by
  constructor
  intro a b
  unfold StrLeR strLe
  by_cases h : lexLt b.data a.data = true
  · right
    by_cases h2 : lexLt a.data b.data = true
    · exact absurd (lexLt_trans h h2) (by simp [lexLt_irrefl])
    · simp [Bool.not_eq_true] at h2
      simp [h2]
  · left
    simp [Bool.not_eq_true] at h
    simp [h]

instance : IsTrans String StrLeR := by
  constructor
  intro a b c hab hbc
  unfold StrLeR strLe at hab hbc ⊢
  simp only [Bool.not_eq_true'] at hab hbc ⊢
  by_cases hca : lexLt c.data a.data = true
  · exfalso
    by_cases h1 : lexLt a.data b.data = true
    · have := lexLt_trans hca h1
      rw [hbc] at this
      exact Bool.false_ne_true this
    · simp [Bool.not_eq_true] at h1
      have : a.data = b.data := lexLt_connex h1 hab
      rw [this] at hca
      rw [hbc] at hca
      exact Bool.false_ne_true hca
  · simp [Bool.not_eq_true] at hca
    exact hca

instance : IsAntisymm String StrLeR := by
  constructor
  intro a b hab hba
  unfold StrLeR strLe at hab hba
  simp only [Bool.not_eq_true'] at hab hba
  exact stringData_inj (lexLt_connex hba hab)

/-- Sorting is invariant under permutation: the output of Python
sorted(...) depends only on the multiset of inputs. -/
theorem sortedStr_congr {l1 l2 : List String} (h : l1.Perm l2) :
    sortedStr l1 = sortedStr l2 :=
  List.eq_of_perm_of_sorted
    ((List.perm_insertionSort StrLeR l1).trans
      (h.trans (List.perm_insertionSort StrLeR l2).symm))
    (List.sorted_insertionSort StrLeR l1)
    (List.sorted_insertionSort StrLeR l2)

/-! ## Shared concrete states for the end-to-end witnesses -/

/-- A fresh kernel holding only the prerequisite top-level chain. -/
def kern0 : Kern := fun c => if c = "QBS-FORWARD" then some [] else none

/-- A fresh worker state over kern0, with empty registries. -/
def st0 : WState := ⟨kern0, kern0, [], []⟩

/-! ## Claims -/

/-- C7 (amended): the legacy chain_for_addr is qbs- followed by the
source address with dots and colons replaced by dashes and truncated to
its last 20 characters, so the result has 4 + min 20 |SA| characters and
never exceeds 24 characters (not 20, as the truncation bounds only the
part after the fixed qbs- prefix). -/
theorem iptChainForAddr_spec (addr : String) :
    iptChainForAddr addr =
      "qbs-" ++ takeLast 20 (replaceChar (replaceChar addr '.' '-') ':' '-')
    ∧ (iptChainForAddr addr).length = 4 + min 20 addr.length
    ∧ (iptChainForAddr addr).length ≤ 24 := by
  refine ⟨rfl, ?_, ?_⟩
  · show ("qbs-" ++ takeLast 20 (replaceChar (replaceChar addr '.' '-') ':' '-')).length = _
    have h : ∀ s t : String, (s ++ t).length = s.length + t.length := by
      intro s t
      show (s ++ t).data.length = s.data.length + t.data.length
      rw [String.data_append, List.length_append]
    rw [h]
    show 4 + (List.drop _ _).length = _
    rw [List.length_drop]
    simp only [List.length_map, replaceChar, takeLast]
    show 4 + (addr.data.length - (addr.data.length - 20)) = 4 + min 20 addr.data.length
    omega
  · show ("qbs-" ++ takeLast 20 (replaceChar (replaceChar addr '.' '-') ':' '-')).length ≤ 24
    have h : ∀ s t : String, (s ++ t).length = s.length + t.length := by
      intro s t
      show (s ++ t).data.length = s.data.length + t.data.length
      rw [String.data_append, List.length_append]
    rw [h]
    show 4 + (List.drop _ _).length ≤ 24
    rw [List.length_drop]
    omega

/-- C7 counterexample: for a long IPv6 source address the chain name has
24 characters, refuting the claim that the result never exceeds 20. -/
theorem iptChainForAddr_over20 :
    (iptChainForAddr "fd00:1234:5678:9abc::1").length = 24
    ∧ ¬ ((iptChainForAddr "fd00:1234:5678:9abc::1").length ≤ 20) := by
  decide

/-- C10: the legacy chain_for_addr is not injective: two distinct IPv6
source addresses agreeing on their last 20 post-replacement characters
map to the same chain name, and applying the rule set of the second
address overwrites the kernel chain that held the rules of the first. -/
theorem iptChain_collision_overwrite :
    ("fd00:1234:5678:9abc::1" : String) ≠ "fe00:1234:5678:9abc::1"
    ∧ iptChainForAddr "fd00:1234:5678:9abc::1"
        = iptChainForAddr "fe00:1234:5678:9abc::1"
    ∧ (iptApplyRules [] (fun _ => none) st0 "fd00:1234:5678:9abc::1"
          [[("action", "accept")]]).2 = none
    ∧ ((iptApplyRules [] (fun _ => none) st0 "fd00:1234:5678:9abc::1"
          [[("action", "accept")]]).1.kern 6
            (iptChainForAddr "fd00:1234:5678:9abc::1")) = some [" -j ACCEPT"]
    ∧ (iptApplyRules [] (fun _ => none)
          (iptApplyRules [] (fun _ => none) st0 "fd00:1234:5678:9abc::1"
            [[("action", "accept")]]).1
          "fe00:1234:5678:9abc::1" [[("action", "drop")]]).2 = none
    ∧ ((iptApplyRules [] (fun _ => none)
          (iptApplyRules [] (fun _ => none) st0 "fd00:1234:5678:9abc::1"
            [[("action", "accept")]]).1
          "fe00:1234:5678:9abc::1" [[("action", "drop")]]).1.kern 6
            (iptChainForAddr "fd00:1234:5678:9abc::1")) = some [" -j DROP"] := by
  refine ⟨by decide, by decide, rfl, rfl, rfl, rfl⟩

/-- C6 counterexample: for the rule action=accept proto=tcp dstports=443
the legacy backend emits --dport 443, not --dport 443:443; the claimed
lo:hi line is not among the emitted specifications. -/
theorem ipt_singleport_counterexample :
    iptRuleSpecs [] (fun _ => none) 4
        [[("action", "accept"), ("proto", "tcp"), ("dstports", "443")],
         [("action", "drop")]]
      = .ok [" -p tcp --dport 443 -j ACCEPT", " -j DROP"]
    ∧ " -p tcp --dport 443:443 -j ACCEPT"
        ∉ [" -p tcp --dport 443 -j ACCEPT", " -j DROP"] := by
  decide

/-- C6 (amended): for SA 10.137.0.5 with policy drop and the single rule
0000: action=accept proto=tcp dstports=443, the prepared program for
chain qbs-10-137-0-5 contains the rule line with --dport 443 followed by
the terminal -j DROP line: a single-port dstports value is emitted
verbatim, and the lo:hi form appears only when the stored value is an
explicit lo-hi range such as 443-443. -/
theorem ipt_singleport_scenario (dns : List String)
    (resolve : String → Option (List String)) :
    iptProgram "qbs-10-137-0-5" dns resolve 4
        [[("action", "accept"), ("proto", "tcp"), ("dstports", "443")],
         [("action", "drop")]]
      = .ok ("*filter\n-A qbs-10-137-0-5 -p tcp --dport 443 -j ACCEPT\n"
          ++ "-A qbs-10-137-0-5 -j DROP\nCOMMIT\n")
    ∧ iptChainForAddr "10.137.0.5" = "qbs-10-137-0-5"
    ∧ iptRuleSpecs dns resolve 4
        [[("action", "accept"), ("proto", "tcp"), ("dstports", "443-443")]]
      = .ok [" -p tcp --dport 443:443 -j ACCEPT"] := by
  exact ⟨rfl, rfl, rfl⟩

/-- C2 counterexample: when read_rules fails with RuleParseError and the
fallback application then fails, the exception escapes handle_addr (the
fallback call inside the RuleParseError handler is not protected), so
handle_addr does raise in one of the cases the claim covers. -/
theorem handle_addr_parse_fallback_raises :
    handle_addr (fun (s : Unit) _ => (s, some FwError.applyError))
      (.error .parseError) ()
      = ((), some FwError.applyError) := by
  rfl

/-- C2 (amended): handle_addr applies the fallback drop-only list after
a RuleParseError, but an error raised by that fallback application
propagates; after a RuleApplyError it retries the fallback and swallows
only a RuleApplyError of the retry, raising nothing in that case; a
successful apply raises nothing. -/
theorem handle_addr_error_flow {σ : Type}
    (applyFn : σ → List Rule → σ × Option FwError) (s : σ)
    (rules : List Rule) :
    (handle_addr applyFn (.error .parseError) s = applyFn s fallbackRules)
    ∧ (∀ s1, applyFn s rules = (s1, some .parseError) →
        handle_addr applyFn (.ok rules) s = applyFn s1 fallbackRules)
    ∧ (∀ s1, applyFn s rules = (s1, none) →
        handle_addr applyFn (.ok rules) s = (s1, none))
    ∧ (∀ s1 s2 e2, applyFn s rules = (s1, some .applyError) →
        applyFn s1 fallbackRules = (s2, e2) →
        handle_addr applyFn (.ok rules) s =
          (s2, if e2 = some FwError.applyError then none else e2)) := by
  refine ⟨rfl, ?_, ?_, ?_⟩
  · intro s1 h
    show (match applyFn s rules with
      | (s1, none) => (s1, none)
      | (s1, some e) => _) = _
    rw [h]
  · intro s1 h
    show (match applyFn s rules with
      | (s1, none) => (s1, none)
      | (s1, some e) => _) = _
    rw [h]
  · intro s1 s2 e2 h1 h2
    show (match applyFn s rules with
      | (s1, none) => (s1, none)
      | (s1, some e) => _) = _
    rw [h1]
    show (match applyFn s1 fallbackRules with
      | (s2, some .applyError) => (s2, none)
      | (s2, e2) => (s2, e2)) = _
    rw [h2]
    cases e2 with
    | none => rfl
    | some e =>
      cases e <;> rfl

/-- C2 witness: a concrete run in which the first apply fails with
RuleApplyError and the fallback retry also fails with RuleApplyError;
handle_addr performs both calls and raises nothing. -/
theorem handle_addr_error_flow_witness :
    handle_addr
      (fun (s : List (List Rule)) rs => (s ++ [rs], some FwError.applyError))
      (.ok [[("action", "accept")]]) []
      = ([[[("action", "accept")]], fallbackRules], none) := by
  have h := ((handle_addr_error_flow
      (fun (s : List (List Rule)) rs => (s ++ [rs], some FwError.applyError))
      [] [[("action", "accept")]]).2.2.2)
      [[[("action", "accept")]]]
      [[[("action", "accept")]], fallbackRules]
      (some FwError.applyError) rfl rfl
  simpa using h

/-! ## C3: characterization of read_rules -/

/-- The rule a well-formed value parses to (the total companion of
parseRuleStr). -/
def ruleOfValue (v : String) : Rule :=
  (pySplit ' ' v).filterMap (fun t =>
    match pySplit '=' t with
    | [k, val] => some (k, val)
    | _ => none)

/-- Every space-separated token of the value splits on equal signs into
exactly two pieces. -/
def valueSplittable (v : String) : Bool :=
  (pySplit ' ' v).all (fun t => (pySplit '=' t).length == 2)

/-- The per-entry success condition of the read_rules loop. -/
def entryOk (e : String × String) : Bool :=
  fourDigitB e.1 && valueSplittable e.2
    && (rget (ruleOfValue e.2) "action").isSome

/-- The failure condition of read_rules stated by the spec: policy
absent, or some non-policy entry with a bad identifier, an unsplittable
value, or a missing action. -/
def readFailB (entries : List (String × String)) : Bool :=
  !(rget entries "policy").isSome
    || (entries.filter (fun e => e.1 != "policy")).any (fun e => !(entryOk e))

theorem kvOfToken_ok_iff (t : String) :
    (∃ kv, kvOfToken t = .ok kv) ↔ ((pySplit '=' t).length == 2) = true := by
  unfold kvOfToken
  match h : pySplit '=' t with
  | [] => simp
  | [a] => simp
  | [a, b] => simp
  | a :: b :: c :: rest => simp

theorem kvOfToken_ok_val {t : String} {kv : String × String}
    (h : kvOfToken t = .ok kv) :
    (match pySplit '=' t with
      | [k, val] => some (k, val)
      | _ => none) = some kv := by
  unfold kvOfToken at h
  match h2 : pySplit '=' t with
  | [] => rw [h2] at h; cases h
  | [a] => rw [h2] at h; cases h
  | [a, b] => rw [h2] at h; cases h; rfl
  | a :: b :: c :: rest => rw [h2] at h; cases h

theorem parseKVLoop_ok_iff (ts : List String) :
    (∃ r, parseKVLoop ts = .ok r)
      ↔ ∀ t ∈ ts, ((pySplit '=' t).length == 2) = true := by
  induction ts with
  | nil => simp [parseKVLoop]
  | cons t ts ih =>
    constructor
    · rintro ⟨r, hr⟩
      intro u hu
      unfold parseKVLoop at hr
      cases hkv : kvOfToken t with
      | error e => rw [hkv] at hr; cases hr
      | ok kv =>
        rw [hkv] at hr
        cases hloop : parseKVLoop ts with
        | error e => rw [hloop] at hr; cases hr
        | ok rest =>
          rcases List.mem_cons.mp hu with hu | hu
          · subst hu
            exact (kvOfToken_ok_iff u).mp ⟨kv, hkv⟩
          · exact ih.mp ⟨rest, hloop⟩ u hu
    · intro hall
      have h1 := (kvOfToken_ok_iff t).mpr (hall t (List.mem_cons_self t ts))
      rcases h1 with ⟨kv, hkv⟩
      have h2 := ih.mpr (fun u hu => hall u (List.mem_cons_of_mem t hu))
      rcases h2 with ⟨rest, hloop⟩
      exact ⟨kv :: rest, by unfold parseKVLoop; rw [hkv, hloop]⟩

theorem parseKVLoop_ok_val {ts : List String} {r : Rule}
    (h : parseKVLoop ts = .ok r) :
    r = ts.filterMap (fun t =>
      match pySplit '=' t with
      | [k, val] => some (k, val)
      | _ => none) := by
  induction ts generalizing r with
  | nil => cases h; rfl
  | cons t ts ih =>
    unfold parseKVLoop at h
    cases hkv : kvOfToken t with
    | error e => rw [hkv] at h; cases h
    | ok kv =>
      rw [hkv] at h
      cases hloop : parseKVLoop ts with
      | error e => rw [hloop] at h; cases h
      | ok rest =>
        rw [hloop] at h
        cases h
        rw [List.filterMap_cons, kvOfToken_ok_val hkv, ih hloop]

theorem parseRuleStr_ok_iff (v : String) :
    (∃ r, parseRuleStr v = .ok r) ↔ valueSplittable v = true := by
  unfold parseRuleStr valueSplittable
  rw [parseKVLoop_ok_iff, List.all_eq_true]

theorem parseRuleStr_ok_val {v : String} {r : Rule}
    (h : parseRuleStr v = .ok r) : r = ruleOfValue v :=
  parseKVLoop_ok_val h

theorem readRulesEntry_ok_iff (e : String × String) :
    (∃ r, readRulesEntry e = .ok r) ↔ entryOk e = true := by
  unfold readRulesEntry entryOk
  cases hfd : fourDigitB e.1 with
  | false =>
    simp
  | true =>
    simp only [Bool.not_true, if_neg Bool.false_ne_true, Bool.true_and]
    cases hps : parseRuleStr e.2 with
    | error err =>
      have hsp : valueSplittable e.2 = false := by
        cases hsp2 : valueSplittable e.2
        · rfl
        · exfalso
          rcases (parseRuleStr_ok_iff e.2).mpr hsp2 with ⟨r, hr⟩
          rw [hps] at hr
          cases hr
      rw [hsp]
      simp
    | ok rd =>
      have hrd : rd = ruleOfValue e.2 := parseRuleStr_ok_val hps
      have hsp : valueSplittable e.2 = true :=
        (parseRuleStr_ok_iff e.2).mp ⟨rd, hps⟩
      rw [hsp]
      subst hrd
      simp only [Bool.true_and]
      cases hact : rget (ruleOfValue e.2) "action" with
      | none => simp [hact]
      | some a => simp [hact]

theorem readRulesEntry_ok_val {e : String × String} {r : Rule}
    (h : readRulesEntry e = .ok r) : r = ruleOfValue e.2 := by
  unfold readRulesEntry at h
  cases hfd : fourDigitB e.1 with
  | false =>
    rw [hfd] at h
    simp at h
  | true =>
    rw [hfd] at h
    simp only [Bool.not_true, if_neg Bool.false_ne_true] at h
    cases hps : parseRuleStr e.2 with
    | error err =>
      rw [hps] at h
      cases h
    | ok rd =>
      rw [hps] at h
      replace h : (if (rget rd "action").isNone = true
          then Except.error FwError.parseError
          else Except.ok rd) = Except.ok r := h
      cases hact : (rget rd "action").isNone with
      | true =>
        rw [hact] at h
        simp at h
      | false =>
        rw [hact] at h
        simp only [if_neg Bool.false_ne_true] at h
        cases h
        exact parseRuleStr_ok_val hps

theorem readRulesLoop_ok_iff (l : List (String × String)) :
    (∃ rs, readRulesLoop l = .ok rs) ↔ ∀ e ∈ l, entryOk e = true := by
  induction l with
  | nil => simp [readRulesLoop]
  | cons e l ih =>
    constructor
    · rintro ⟨rs, hrs⟩
      intro u hu
      unfold readRulesLoop at hrs
      cases he : readRulesEntry e with
      | error err => rw [he] at hrs; cases hrs
      | ok r =>
        rw [he] at hrs
        cases hloop : readRulesLoop l with
        | error err => rw [hloop] at hrs; cases hrs
        | ok rest =>
          rcases List.mem_cons.mp hu with hu | hu
          · subst hu
            exact (readRulesEntry_ok_iff u).mp ⟨r, he⟩
          · exact ih.mp ⟨rest, hloop⟩ u hu
    · intro hall
      rcases (readRulesEntry_ok_iff e).mpr (hall e (List.mem_cons_self e l)) with ⟨r, he⟩
      rcases ih.mpr (fun u hu => hall u (List.mem_cons_of_mem e hu)) with ⟨rest, hloop⟩
      exact ⟨r :: rest, by unfold readRulesLoop; rw [he, hloop]⟩

theorem readRulesLoop_ok_val {l : List (String × String)} {rs : List Rule}
    (h : readRulesLoop l = .ok rs) :
    rs = l.map (fun e => ruleOfValue e.2) := by
  induction l generalizing rs with
  | nil => cases h; rfl
  | cons e l ih =>
    unfold readRulesLoop at h
    cases he : readRulesEntry e with
    | error err => rw [he] at h; cases h
    | ok r =>
      rw [he] at h
      cases hloop : readRulesLoop l with
      | error err => rw [hloop] at h; cases h
      | ok rest =>
        rw [hloop] at h
        cases h
        rw [List.map_cons, readRulesEntry_ok_val he, ih hloop]

/-- C3 (amended): read_rules orders the non-policy entries, parses each
value, and appends the synthetic policy rule at the tail; it fails
exactly when the policy entry is absent, some non-policy leaf is not a
four-digit numeric string, some rule value cannot be split on spaces
into k=v tokens, or some rule lacks the action option — but the
unsplittable-value failure surfaces as an uncaught ValueError from
dict(...), not as RuleParseError. -/
theorem read_rules_spec (entries : List (String × String)) :
    ((∃ rs, read_rules entries = .ok rs) ↔ readFailB entries = false)
    ∧ (∀ policy rs, rget entries "policy" = some policy →
        read_rules entries = .ok rs →
        rs = (sortEntries (entries.filter (fun e => e.1 != "policy"))).map
              (fun e => ruleOfValue e.2)
          ++ [[("action", policy)]]) := by
  constructor
  · unfold read_rules readFailB
    cases hp : rget entries "policy" with
    | none =>
      simp only [hp, Option.isSome_none, Bool.not_false, Bool.true_or]
      constructor
      · rintro ⟨rs, hrs⟩
        cases hrs
      · intro h
        cases h
    | some policy =>
      simp only [hp, Option.isSome_some, Bool.not_true, Bool.false_or]
      have hperm : (sortEntries (entries.filter (fun e => e.1 != "policy"))).Perm
          (entries.filter (fun e => e.1 != "policy")) :=
        List.perm_insertionSort PairLeR _
      constructor
      · rintro ⟨rs, hrs⟩
        cases hloop : readRulesLoop
            (sortEntries (entries.filter (fun e => e.1 != "policy"))) with
        | error err =>
          rw [hloop] at hrs
          cases hrs
        | ok rules =>
          have hall := (readRulesLoop_ok_iff _).mp ⟨rules, hloop⟩
          rw [List.any_eq_false]
          intro e he
          have : entryOk e = true := hall e (hperm.mem_iff.mpr he)
          simp [this]
      · intro h
        rw [List.any_eq_false] at h
        have hall : ∀ e ∈ sortEntries (entries.filter (fun e => e.1 != "policy")),
            entryOk e = true := by
          intro e he
          have := h e (hperm.mem_iff.mp he)
          simpa using this
        rcases (readRulesLoop_ok_iff _).mpr hall with ⟨rules, hloop⟩
        refine ⟨rules ++ [[("action", policy)]], ?_⟩
        rw [hloop]
  · intro policy rs hp hrs
    unfold read_rules at hrs
    rw [hp] at hrs
    cases hloop : readRulesLoop
        (sortEntries (entries.filter (fun e => e.1 != "policy"))) with
    | error err =>
      rw [hloop] at hrs
      cases hrs
    | ok rules =>
      rw [hloop] at hrs
      cases hrs
      rw [readRulesLoop_ok_val hloop]

/-- C3 witness: a concrete well-formed store parses to the ordered rules
plus the policy tail. -/
theorem read_rules_spec_witness :
    (sortEntries ([("policy", "drop"), ("0000", "action=accept")].filter
        (fun e => e.1 != "policy"))).map (fun e => ruleOfValue e.2)
      ++ [[("action", "drop")]]
      = [[("action", "accept")], [("action", "drop")]] := by
  have h := (read_rules_spec [("policy", "drop"), ("0000", "action=accept")]).2
      "drop" [[("action", "accept")], [("action", "drop")]] rfl rfl
  exact h.symm

/-- C3 counterexample: a rule value with a token that cannot be split
into k=v pieces makes read_rules fail with ValueError, not with
RuleParseError, although the claimed failure condition holds. -/
theorem read_rules_valueError :
    read_rules [("policy", "accept"), ("0000", "foo")] = .error .valueError
    ∧ FwError.valueError ≠ FwError.parseError
    ∧ valueSplittable "foo" = false := by
  refine ⟨rfl, by decide, by decide⟩

/-! ## C5: the legacy specialtarget=dns handling -/

/-- C5: on the legacy backend, a rule with specialtarget=dns (passing
the option and family checks, with its destination stage already
computed) is skipped silently when dstports (after the hyphen-to-colon
rewrite) is set and differs from 53:53; otherwise dstports is forced to
53:53, the rule is skipped when the nameserver list is empty, protos is
intersected with tcp/udp (tcp/udp when unset) and dsthosts is
intersected with the nameserver set (the nameserver set when unset). -/
theorem ipt_specialtarget_dns (dns : List String)
    (resolve : String → Option (List String)) (family : Nat) (rule : Rule)
    (dh : Option (List String))
    (hst : rget rule "specialtarget" = some "dns")
    (hchk : ruleChecks family rule = .ok ())
    (hdh : dsthostsOf resolve family rule = .ok dh) :
    (∀ p, (rget rule "dstports").map (fun s => replaceChar s '-' ':') = some p →
        p ≠ "53:53" → iptRuleParts dns resolve family rule = .ok none)
    ∧ (((rget rule "dstports").map (fun s => replaceChar s '-' ':') = none
          ∨ (rget rule "dstports").map (fun s => replaceChar s '-' ':')
              = some "53:53") →
        dns = [] → iptRuleParts dns resolve family rule = .ok none)
    ∧ (((rget rule "dstports").map (fun s => replaceChar s '-' ':') = none
          ∨ (rget rule "dstports").map (fun s => replaceChar s '-' ':')
              = some "53:53") →
        dns ≠ [] →
        iptRuleParts dns resolve family rule = .ok (some
          ⟨some (match iptProtosOf family rule with
              | some l => ["tcp", "udp"].filter (fun x => decide (x ∈ l))
              | none => ["tcp", "udp"]),
            some (match dh with
              | some l => dns.dedup.filter (fun x => decide (x ∈ l))
              | none => dns),
            some "53:53",
            rget rule "icmptype"⟩)) := by
  refine ⟨?_, ?_, ?_⟩
  · intro p hp hne
    have h2 : (some p != some "53:53") = true := by
      simp [bne, hne]
    simp only [iptRuleParts, hchk, hdh, hst, hp, h2]
    simp
  · intro hdp hdns
    subst hdns
    rcases hdp with hdp | hdp <;>
      simp [iptRuleParts, hchk, hdh, hst, hdp]
  · intro hdp hdns
    have hne : dns.isEmpty = false := by
      cases dns with
      | nil => exact absurd rfl hdns
      | cons a l => rfl
    rcases hdp with hdp | hdp <;>
      simp [iptRuleParts, hchk, hdh, hst, hdp, hne] <;>
      cases dh <;> rfl

/-- C5 witness: a bare specialtarget=dns rule with one configured
nameserver expands to protos tcp and udp, the nameserver destination,
and port 53:53. -/
theorem ipt_specialtarget_dns_witness :
    iptRuleParts ["1.1.1.1/32"] (fun _ => none) 4
        [("action", "accept"), ("specialtarget", "dns")]
      = .ok (some ⟨some ["tcp", "udp"], some ["1.1.1.1/32"],
          some "53:53", none⟩) := by
  have h := (ipt_specialtarget_dns ["1.1.1.1/32"] (fun _ => none) 4
      [("action", "accept"), ("specialtarget", "dns")] none rfl rfl rfl).2.2
      (Or.inl rfl) (by decide)
  simpa using h

/-! ## C8: modern-backend port handling -/

theorem pySplitAux_no_sep (sep : Char) (xs acc : List Char)
    (h : ∀ c ∈ xs, c ≠ sep) : pySplitAux sep xs acc = [acc.reverse ++ xs] := by
  induction xs generalizing acc with
  | nil => simp [pySplitAux]
  | cons c cs ih =>
    have hc : c ≠ sep := h c (List.mem_cons_self c cs)
    simp only [pySplitAux, if_neg hc]
    rw [ih (c :: acc) (fun d hd => h d (List.mem_cons_of_mem c hd))]
    simp

theorem pySplitAux_sep_split (sep : Char) (xs ys acc : List Char)
    (h : ∀ c ∈ xs, c ≠ sep) :
    pySplitAux sep (xs ++ sep :: ys) acc
      = (acc.reverse ++ xs) :: pySplitAux sep ys [] := by
  induction xs generalizing acc with
  | nil => simp [pySplitAux]
  | cons c cs ih =>
    have hc : c ≠ sep := h c (List.mem_cons_self c cs)
    simp only [List.cons_append, pySplitAux, if_neg hc]
    show pySplitAux sep (cs ++ sep :: ys) (c :: acc) = _
    rw [ih (c :: acc) (fun d hd => h d (List.mem_cons_of_mem c hd))]
    simp

theorem asString_data (s : String) : s.data.asString = s := by
  cases s
  rfl

/-- Collapsing an equal-endpoint range lo-lo yields the single port
token lo (for any hyphen-free token). -/
theorem nftCollapsePorts_collapse (p : String) (hp : ∀ c ∈ p.data, c ≠ '-') :
    nftCollapsePorts (p ++ "-" ++ p) = p := by
  have hdata : (p ++ "-" ++ p).data = p.data ++ '-' :: p.data := by
    rw [String.data_append, String.data_append]
    simp [List.append_assoc]
  have hsplit : pySplit '-' (p ++ "-" ++ p) = [p, p] := by
    unfold pySplit
    rw [hdata, pySplitAux_sep_split '-' p.data p.data [] hp,
      pySplitAux_no_sep '-' p.data [] hp]
    simp [asString_data]
  unfold nftCollapsePorts
  rw [hsplit]
  have hd : ([p, p] : List String).dedup = [p] := by
    rw [List.dedup_cons_of_mem (List.mem_cons_self p [])]
    rfl
  rw [hd]
  rfl

/-- C8: on the modern backend, an equal-endpoint dstports range
collapses to a single token; for a rule that is translated (not
skipped), no dstports yields one emitted rule with no port clause,
dstports without proto yields the tcp dport and udp dport pair, and
dstports with proto yields the single proto dport rule; outside the
specialtarget=dns path the emitted port value is exactly the collapsed
stored value.  The concrete 8000-8000 scenario emits the pair with port
8000. -/
theorem nft_dstports_expansion (enumSet : List String → List String)
    (dns : List String) (resolve : String → Option (List String))
    (family : Nat) (rule : Rule) (base : String) (dp0 : Option String)
    (act : String)
    (hcore : nftRuleCore enumSet dns resolve family rule = .ok (some (base, dp0)))
    (hact : rget rule "action" = some act) :
    (∀ p, (∀ c ∈ p.data, c ≠ '-') → nftCollapsePorts (p ++ "-" ++ p) = p)
    ∧ (rget rule "specialtarget" ≠ some "dns" →
        dp0 = (rget rule "dstports").map nftCollapsePorts)
    ∧ (dp0 = none →
        nftRuleLines enumSet dns resolve family rule
          = .ok (some [base ++ " " ++ act]))
    ∧ (∀ dp, dp0 = some dp → rget rule "proto" = none →
        nftRuleLines enumSet dns resolve family rule
          = .ok (some [base ++ " tcp dport " ++ dp ++ " " ++ act,
                       base ++ " udp dport " ++ dp ++ " " ++ act]))
    ∧ (∀ dp p, dp0 = some dp → rget rule "proto" = some p →
        nftRuleLines enumSet dns resolve family rule
          = .ok (some [base ++ " " ++ p ++ " dport " ++ dp ++ " " ++ act]))
    ∧ nftRuleLines id [] (fun _ => none) 4
        [("action", "accept"), ("dstports", "8000-8000")]
      = .ok (some [" tcp dport 8000 accept", " udp dport 8000 accept"]) := by
  refine ⟨nftCollapsePorts_collapse, ?_, ?_, ?_, ?_, rfl⟩
  · intro hst
    have hb : (rget rule "specialtarget" == some "dns") = false := by
      simp [hst]
    unfold nftRuleCore at hcore
    cases hchk : ruleChecks family rule with
    | error e => rw [hchk] at hcore; cases hcore
    | ok u =>
      rw [hchk] at hcore
      cases hdst : nftDstPart enumSet resolve family rule with
      | error e => rw [hdst] at hcore; cases hcore
      | ok dstPart =>
        rw [hdst] at hcore
        replace hcore :
            (if (rget rule "specialtarget" == some "dns") = true then _ else
              Except.ok (some (nftProtoPart family rule ++ dstPart
                ++ nftIcmpPart family rule,
                (rget rule "dstports").map nftCollapsePorts)))
            = Except.ok (some (base, dp0)) := hcore
        rw [hb] at hcore
        simp only [if_neg Bool.false_ne_true] at hcore
        cases hcore
        rfl
  · intro hdp
    simp only [nftRuleLines, hcore, nftExpand, hact, hdp]
  · intro dp hdp hpr
    simp only [nftRuleLines, hcore, nftExpand, hact, hdp, hpr]
  · intro dp p hdp hpr
    simp only [nftRuleLines, hcore, nftExpand, hact, hdp, hpr]

/-- C8 witness: the rule action=accept dstports=8000-8000 with no proto
is emitted twice, with tcp dport 8000 and udp dport 8000. -/
theorem nft_dstports_expansion_witness :
    nftRuleLines id [] (fun _ => none) 4
        [("action", "accept"), ("dstports", "8000-8000")]
      = .ok (some [" tcp dport 8000 accept", " udp dport 8000 accept"]) := by
  have h := (nft_dstports_expansion id [] (fun _ => none) 4
      [("action", "accept"), ("dstports", "8000-8000")] "" (some "8000")
      "accept" rfl rfl).2.2.2.1 "8000" rfl rfl
  exact h

/-! ## C9: family/destination mismatches -/

/-- A rule whose destination family contradicts the address family. -/
def BadDst (family : Nat) (r : Rule) : Prop :=
  ((rget r "dst4").isSome = true ∧ family = 6)
    ∨ ((rget r "dst6").isSome = true ∧ family = 4)

theorem ruleChecks_err {family : Nat} {r : Rule} {e : FwError}
    (h : ruleChecks family r = .error e) : e = .parseError := by
  unfold ruleChecks at h
  split_ifs at h <;> cases h <;> rfl

theorem ruleChecks_bad {family : Nat} {r : Rule} (hb : BadDst family r) :
    ruleChecks family r = .error .parseError := by
  unfold ruleChecks
  split_ifs with h1 h2 h3
  · rfl
  · rfl
  · rfl
  · exfalso
    rcases hb with ⟨hs, hf⟩ | ⟨hs, hf⟩
    · subst hf
      rw [hs] at h2
      exact h2 rfl
    · subst hf
      rw [hs] at h3
      exact h3 rfl

theorem dsthostsOf_err {resolve : String → Option (List String)}
    {family : Nat} {r : Rule} {e : FwError}
    (h : dsthostsOf resolve family r = .error e) : e = .parseError := by
  unfold dsthostsOf at h
  cases h4 : rget r "dst4" with
  | some v => simp only [h4] at h; cases h
  | none =>
    cases h6 : rget r "dst6" with
    | some v => simp only [h4, h6] at h; cases h
    | none =>
      cases hh : rget r "dsthost" with
      | some host =>
        cases hr : resolve host with
        | none =>
          simp only [h4, h6, hh, hr] at h
          injection h with h2
          exact h2.symm
        | some addrs => simp only [h4, h6, hh, hr] at h; cases h
      | none => simp only [h4, h6, hh] at h; cases h

theorem iptRuleParts_err {dns : List String}
    {resolve : String → Option (List String)} {family : Nat} {r : Rule}
    {e : FwError} (h : iptRuleParts dns resolve family r = .error e) :
    e = .parseError := by
  unfold iptRuleParts at h
  cases hchk : ruleChecks family r with
  | error e2 =>
    rw [hchk] at h
    cases h
    exact ruleChecks_err hchk
  | ok u =>
    rw [hchk] at h
    cases hdh : dsthostsOf resolve family r with
    | error e2 =>
      rw [hdh] at h
      cases h
      exact dsthostsOf_err hdh
    | ok dh =>
      rw [hdh] at h
      replace h : (if rget r "specialtarget" == some "dns" then _ else
          Except.ok (ε := FwError) (some (⟨iptProtosOf family r, dh,
            (rget r "dstports").map (fun s => replaceChar s '-' ':'),
            rget r "icmptype"⟩ : IptParts))) = Except.error e := h
      split_ifs at h

theorem iptRuleParts_bad {dns : List String}
    {resolve : String → Option (List String)} {family : Nat} {r : Rule}
    (hb : BadDst family r) :
    iptRuleParts dns resolve family r = .error .parseError := by
  unfold iptRuleParts
  rw [ruleChecks_bad hb]

theorem iptEmitRule_ok (r : Rule) (p : IptParts)
    (hact : (rget r "action").isSome = true) :
    ∃ lines, iptEmitRule r p = .ok lines := by
  unfold iptEmitRule
  cases ha : rget r "action" with
  | none => rw [ha] at hact; cases hact
  | some act => exact ⟨_, rfl⟩

theorem nftDstPart_err {enumSet : List String → List String}
    {resolve : String → Option (List String)} {family : Nat} {r : Rule}
    {e : FwError} (h : nftDstPart enumSet resolve family r = .error e) :
    e = .parseError := by
  unfold nftDstPart at h
  cases h4 : rget r "dst4" with
  | some v => simp only [h4] at h; cases h
  | none =>
    cases h6 : rget r "dst6" with
    | some v => simp only [h4, h6] at h; cases h
    | none =>
      cases hh : rget r "dsthost" with
      | some host =>
        cases hr : resolve host with
        | none =>
          simp only [h4, h6, hh, hr] at h
          injection h with h2
          exact h2.symm
        | some addrs => simp only [h4, h6, hh, hr] at h; cases h
      | none => simp only [h4, h6, hh] at h; cases h

theorem nftRuleCore_err {enumSet : List String → List String}
    {dns : List String} {resolve : String → Option (List String)}
    {family : Nat} {r : Rule} {e : FwError}
    (h : nftRuleCore enumSet dns resolve family r = .error e) :
    e = .parseError := by
  unfold nftRuleCore at h
  cases hchk : ruleChecks family r with
  | error e2 =>
    rw [hchk] at h
    cases h
    exact ruleChecks_err hchk
  | ok u =>
    rw [hchk] at h
    cases hdp : nftDstPart enumSet resolve family r with
    | error e2 =>
      rw [hdp] at h
      cases h
      exact nftDstPart_err hdp
    | ok dstPart =>
      rw [hdp] at h
      replace h : (if rget r "specialtarget" == some "dns" then _ else
          Except.ok (ε := FwError)
            (some (nftProtoPart family r ++ dstPart ++ nftIcmpPart family r,
              (rget r "dstports").map nftCollapsePorts))) = Except.error e := h
      split_ifs at h

theorem nftRuleCore_bad {enumSet : List String → List String}
    {dns : List String} {resolve : String → Option (List String)}
    {family : Nat} {r : Rule} (hb : BadDst family r) :
    nftRuleCore enumSet dns resolve family r = .error .parseError := by
  unfold nftRuleCore
  rw [ruleChecks_bad hb]

theorem nftExpand_ok (r : Rule) (base : String) (dp : Option String)
    (hact : (rget r "action").isSome = true) :
    ∃ lines, nftExpand r base dp = .ok lines := by
  unfold nftExpand
  cases ha : rget r "action" with
  | none => rw [ha] at hact; cases hact
  | some act =>
    cases dp with
    | none => exact ⟨_, rfl⟩
    | some d =>
      cases rget r "proto" with
      | none => exact ⟨_, rfl⟩
      | some p => exact ⟨_, rfl⟩

/-- C9: on both backends, preparing any rule list in which every rule
carries an action (as every list produced by read_rules does) and some
rule has dst4 under family 6 or dst6 under family 4 raises
RuleParseError. -/
theorem family_mismatch_parse_error (enumSet : List String → List String)
    (dns : List String) (resolve : String → Option (List String))
    (family : Nat) (rules : List Rule)
    (hact : ∀ r ∈ rules, (rget r "action").isSome = true)
    (hbad : ∃ r ∈ rules, BadDst family r) :
    iptRuleSpecs dns resolve family rules = .error .parseError
    ∧ nftRules enumSet dns resolve family rules = .error .parseError := by
  induction rules with
  | nil =>
    rcases hbad with ⟨r, hr, _⟩
    cases hr
  | cons r rs ih =>
    have hactr : (rget r "action").isSome = true :=
      hact r (List.mem_cons_self r rs)
    have hacts : ∀ x ∈ rs, (rget x "action").isSome = true :=
      fun x hx => hact x (List.mem_cons_of_mem r hx)
    constructor
    · cases hp : iptRuleParts dns resolve family r with
      | error e =>
        have he := iptRuleParts_err hp
        subst he
        simp only [iptRuleSpecs, hp]
      | ok parts =>
        have hbadrs : ∃ x ∈ rs, BadDst family x := by
          rcases hbad with ⟨x, hx, hxbad⟩
          rcases List.mem_cons.mp hx with hx | hx
          · subst hx
            rw [iptRuleParts_bad hxbad] at hp
            cases hp
          · exact ⟨x, hx, hxbad⟩
        have hrec := (ih hacts hbadrs).1
        cases parts with
        | none => simp only [iptRuleSpecs, hp, hrec]
        | some p =>
          rcases iptEmitRule_ok r p hactr with ⟨lines, hl⟩
          simp only [iptRuleSpecs, hp, hl, hrec]
    · cases hp : nftRuleLines enumSet dns resolve family r with
      | error e =>
        have he : e = .parseError := by
          unfold nftRuleLines at hp
          cases hc : nftRuleCore enumSet dns resolve family r with
          | error e2 =>
            simp only [hc] at hp
            injection hp with h2
            exact h2 ▸ nftRuleCore_err hc
          | ok core =>
            cases core with
            | none =>
              simp only [hc] at hp
              cases hp
            | some bd =>
              obtain ⟨b1, b2⟩ := bd
              cases hbd : nftExpand r b1 b2 with
              | error e2 =>
                exfalso
                rcases nftExpand_ok r b1 b2 hactr with ⟨lines, hl⟩
                rw [hl] at hbd
                cases hbd
              | ok lines =>
                simp only [hc, hbd] at hp
                cases hp
        subst he
        simp only [nftRules, hp]
      | ok lines =>
        have hbadrs : ∃ x ∈ rs, BadDst family x := by
          rcases hbad with ⟨x, hx, hxbad⟩
          rcases List.mem_cons.mp hx with hx | hx
          · subst hx
            unfold nftRuleLines at hp
            rw [nftRuleCore_bad hxbad] at hp
            cases hp
          · exact ⟨x, hx, hxbad⟩
        have hrec := (ih hacts hbadrs).2
        simp only [nftRules, hp, hrec]

/-- C9 witness: a dst4 rule prepared for family 6 fails with
RuleParseError on both backends. -/
theorem family_mismatch_parse_error_witness :
    iptRuleSpecs [] (fun _ => none) 6
        [[("action", "accept"), ("dst4", "10.0.0.1")]]
      = .error .parseError
    ∧ nftRules id [] (fun _ => none) 6
        [[("action", "accept"), ("dst4", "10.0.0.1")]]
      = .error .parseError := by
  have h := family_mismatch_parse_error id [] (fun _ => none) 6
      [[("action", "accept"), ("dst4", "10.0.0.1")]]
      (by decide)
      ⟨[("action", "accept"), ("dst4", "10.0.0.1")], by decide,
        Or.inl ⟨by decide, rfl⟩⟩
  exact h

/-! ## C4: determinism of translation -/

/-- Two optional address lists that are permutations of each other (the
relation between two runs of the resolver, or between two enumerations
of one Python set). -/
def OptPerm : Option (List String) → Option (List String) → Prop
  | none, none => True
  | some a, some b => a.Perm b
  | _, _ => False

/-- The relation between the dsthosts stages of two runs. -/
def ExOptPerm :
    Except FwError (Option (List String)) →
    Except FwError (Option (List String)) → Prop
  | .ok d1, .ok d2 => OptPerm d1 d2
  | .error e1, .error e2 => e1 = e2
  | _, _ => False

/-- The relation between the per-rule selector stages of two runs. -/
def PartsRel (p1 p2 : IptParts) : Prop :=
  p1.protos = p2.protos ∧ OptPerm p1.dsthosts p2.dsthosts
    ∧ p1.dstports = p2.dstports ∧ p1.icmptype = p2.icmptype

/-- The relation between two per-rule translation outcomes. -/
def ExPartsRel :
    Except FwError (Option IptParts) → Except FwError (Option IptParts) → Prop
  | .ok none, .ok none => True
  | .ok (some p1), .ok (some p2) => PartsRel p1 p2
  | .error e1, .error e2 => e1 = e2
  | _, _ => False

theorem optIter_congr {o1 o2 : Option (List String)} (h : OptPerm o1 o2) :
    optIter o1 = optIter o2 := by
  cases o1 with
  | none =>
    cases o2 with
    | none => rfl
    | some b => cases h
  | some a =>
    cases o2 with
    | none => cases h
    | some b =>
      have hp : a.Perm b := h
      show (sortedStr a).map some = (sortedStr b).map some
      rw [sortedStr_congr hp]

theorem dsthostsOf_perm {resolve1 resolve2 : String → Option (List String)}
    (hres : ∀ h, OptPerm (resolve1 h) (resolve2 h)) (family : Nat) (r : Rule) :
    ExOptPerm (dsthostsOf resolve1 family r) (dsthostsOf resolve2 family r) := by
  cases h4 : rget r "dst4" with
  | some v =>
    simp only [dsthostsOf, h4]
    exact List.Perm.refl _
  | none =>
    cases h6 : rget r "dst6" with
    | some v =>
      simp only [dsthostsOf, h4, h6]
      exact List.Perm.refl _
    | none =>
      cases hh : rget r "dsthost" with
      | some host =>
        have hrel := hres host
        cases hr1 : resolve1 host with
        | none =>
          cases hr2 : resolve2 host with
          | none =>
            simp only [dsthostsOf, h4, h6, hh, hr1, hr2]
            exact rfl
          | some b =>
            rw [hr1, hr2] at hrel
            cases hrel
        | some a =>
          cases hr2 : resolve2 host with
          | none =>
            rw [hr1, hr2] at hrel
            cases hrel
          | some b =>
            rw [hr1, hr2] at hrel
            have hp : a.Perm b := hrel
            simp only [dsthostsOf, h4, h6, hh, hr1, hr2]
            exact (hp.map (fun x => x ++ fullmaskOf family)).dedup
      | none =>
        simp only [dsthostsOf, h4, h6, hh]
        exact trivial

theorem filter_mem_congr {l1 l2 : List String} (hp : l1.Perm l2)
    (base : List String) :
    base.filter (fun x => decide (x ∈ l1))
      = base.filter (fun x => decide (x ∈ l2)) := by
  refine List.filter_congr ?_
  intro x _
  exact decide_eq_decide.mpr hp.mem_iff

theorem iptRuleParts_perm (dns : List String)
    {resolve1 resolve2 : String → Option (List String)}
    (hres : ∀ h, OptPerm (resolve1 h) (resolve2 h)) (family : Nat) (r : Rule) :
    ExPartsRel (iptRuleParts dns resolve1 family r)
      (iptRuleParts dns resolve2 family r) := by
  cases hchk : ruleChecks family r with
  | error e =>
    simp only [iptRuleParts, hchk]
    exact rfl
  | ok u =>
    have hd := dsthostsOf_perm hres family r
    cases hd1 : dsthostsOf resolve1 family r with
    | error e1 =>
      cases hd2 : dsthostsOf resolve2 family r with
      | error e2 =>
        rw [hd1, hd2] at hd
        have he : e1 = e2 := hd
        simp only [iptRuleParts, hchk, hd1, hd2, he]
        exact rfl
      | ok d2 =>
        rw [hd1, hd2] at hd
        cases hd
    | ok d1 =>
      cases hd2 : dsthostsOf resolve2 family r with
      | error e2 =>
        rw [hd1, hd2] at hd
        cases hd
      | ok d2 =>
        rw [hd1, hd2] at hd
        have hopt : OptPerm d1 d2 := hd
        simp only [iptRuleParts, hchk, hd1, hd2]
        by_cases hst : (rget r "specialtarget" == some "dns") = true
        · rw [hst, if_pos rfl]
          by_cases hdp : ((rget r "dstports").map
                (fun s => replaceChar s '-' ':') != none
              && (rget r "dstports").map (fun s => replaceChar s '-' ':')
                != some "53:53") = true
          · rw [hdp, if_pos rfl]
            exact trivial
          · rw [Bool.not_eq_true] at hdp
            rw [hdp, if_neg Bool.false_ne_true]
            by_cases hde : dns.isEmpty = true
            · rw [hde, if_pos rfl]
              exact trivial
            · rw [Bool.not_eq_true] at hde
              rw [hde, if_neg Bool.false_ne_true]
              refine ⟨rfl, ?_, rfl, rfl⟩
              cases d1 with
              | none =>
                cases d2 with
                | none => exact List.Perm.refl _
                | some l2 => cases hopt
              | some l1 =>
                cases d2 with
                | none => cases hopt
                | some l2 =>
                  have hp : l1.Perm l2 := hopt
                  show (dns.dedup.filter (fun x => decide (x ∈ l1))).Perm
                    (dns.dedup.filter (fun x => decide (x ∈ l2)))
                  rw [filter_mem_congr hp]
        · rw [Bool.not_eq_true] at hst
          rw [hst, if_neg Bool.false_ne_true]
          exact ⟨rfl, hopt, rfl, rfl⟩

theorem iptEmitRule_congr (r : Rule) {p1 p2 : IptParts}
    (hrel : PartsRel p1 p2) : iptEmitRule r p1 = iptEmitRule r p2 := by
  rcases hrel with ⟨h1, h2, h3, h4⟩
  unfold iptEmitRule
  cases rget r "action" with
  | none => rfl
  | some act =>
    rw [h1, optIter_congr h2, h3, h4]

/-- C4 (amended): translation is deterministic on the legacy backend:
for identical nameserver lists and resolver results equal up to order,
the emitted specifications are byte-identical (the cartesian expansion
is sorted).  On the modern backend, determinism holds for rule lists
without resolved dsthost sets; the daddr set of a resolved dsthost is
joined in set iteration order, which is not fixed across runs. -/
theorem translation_determinism (dns : List String)
    (resolve1 resolve2 : String → Option (List String))
    (enumSet1 enumSet2 : List String → List String) (family : Nat)
    (rules : List Rule)
    (hres : ∀ h, OptPerm (resolve1 h) (resolve2 h)) :
    iptRuleSpecs dns resolve1 family rules
      = iptRuleSpecs dns resolve2 family rules
    ∧ ((∀ r ∈ rules, rget r "dsthost" = none) →
        nftRules enumSet1 dns resolve1 family rules
          = nftRules enumSet2 dns resolve1 family rules) := by
  constructor
  · induction rules with
    | nil => rfl
    | cons r rs ih =>
      have hrel := iptRuleParts_perm dns hres family r
      unfold iptRuleSpecs
      cases hp1 : iptRuleParts dns resolve1 family r with
      | error e1 =>
        cases hp2 : iptRuleParts dns resolve2 family r with
        | error e2 =>
          rw [hp1, hp2] at hrel
          have he : e1 = e2 := hrel
          show (Except.error e1 : Except FwError (List String)) = Except.error e2
          rw [he]
        | ok d2 =>
          rw [hp1, hp2] at hrel
          cases d2 with
          | none => cases hrel
          | some p => cases hrel
      | ok d1 =>
        cases hp2 : iptRuleParts dns resolve2 family r with
        | error e2 =>
          rw [hp1, hp2] at hrel
          cases d1 with
          | none => cases hrel
          | some p => cases hrel
        | ok d2 =>
          rw [hp1, hp2] at hrel
          cases d1 with
          | none =>
            cases d2 with
            | none =>
              show (match iptRuleSpecs dns resolve1 family rs with
                  | Except.error e => Except.error e
                  | Except.ok rest => Except.ok rest)
                = (match iptRuleSpecs dns resolve2 family rs with
                  | Except.error e => Except.error e
                  | Except.ok rest => Except.ok rest)
              rw [ih]
            | some p2 => cases hrel
          | some p1 =>
            cases d2 with
            | none => cases hrel
            | some p2 =>
              have hpr : PartsRel p1 p2 := hrel
              show (match iptEmitRule r p1 with
                  | Except.error e => Except.error e
                  | Except.ok lines =>
                    match iptRuleSpecs dns resolve1 family rs with
                    | Except.error e => Except.error e
                    | Except.ok rest => Except.ok (lines ++ rest))
                = (match iptEmitRule r p2 with
                  | Except.error e => Except.error e
                  | Except.ok lines =>
                    match iptRuleSpecs dns resolve2 family rs with
                    | Except.error e => Except.error e
                    | Except.ok rest => Except.ok (lines ++ rest))
              rw [iptEmitRule_congr r hpr, ih]
  · induction rules with
    | nil =>
      intro _
      rfl
    | cons r rs ih =>
      intro hnoh
      have hr : rget r "dsthost" = none := hnoh r (List.mem_cons_self r rs)
      have hrs : ∀ x ∈ rs, rget x "dsthost" = none :=
        fun x hx => hnoh x (List.mem_cons_of_mem r hx)
      have hdst : nftDstPart enumSet1 resolve1 family r
          = nftDstPart enumSet2 resolve1 family r := by
        unfold nftDstPart
        rw [hr]
      have hcore : nftRuleCore enumSet1 dns resolve1 family r
          = nftRuleCore enumSet2 dns resolve1 family r := by
        unfold nftRuleCore
        rw [hdst]
      have hlines : nftRuleLines enumSet1 dns resolve1 family r
          = nftRuleLines enumSet2 dns resolve1 family r := by
        unfold nftRuleLines
        rw [hcore]
      unfold nftRules
      rw [hlines, ih hrs]

/-- C4 counterexample: with a dsthost resolving to two addresses, two
valid set-enumeration orders give byte-different modern-backend
programs, so the modern translation is not a function of (SA, RuleList)
alone. -/
theorem nft_dsthost_order_dependent :
    nftRules id [] (fun _ => some ["1.0.0.1", "1.0.0.2"]) 4
        [[("action", "accept"), ("dsthost", "h")]]
      ≠ nftRules (fun l => l.reverse) [] (fun _ => some ["1.0.0.1", "1.0.0.2"]) 4
        [[("action", "accept"), ("dsthost", "h")]]
    ∧ (id ["1.0.0.1/32", "1.0.0.2/32"]).Perm ["1.0.0.1/32", "1.0.0.2/32"]
    ∧ (["1.0.0.1/32", "1.0.0.2/32"].reverse).Perm ["1.0.0.1/32", "1.0.0.2/32"] := by
  refine ⟨by decide, by decide, by decide⟩

/-- C4 witness: two resolver runs returning the same address set in
different orders produce identical legacy programs. -/
theorem translation_determinism_witness :
    iptRuleSpecs [] (fun _ => some ["8.8.8.8", "1.1.1.1"]) 4
        [[("action", "accept"), ("dsthost", "h")]]
      = iptRuleSpecs [] (fun _ => some ["1.1.1.1", "8.8.8.8"]) 4
        [[("action", "accept"), ("dsthost", "h")]] := by
  exact (translation_determinism [] (fun _ => some ["8.8.8.8", "1.1.1.1"])
      (fun _ => some ["1.1.1.1", "8.8.8.8"]) id id 4
      [[("action", "accept"), ("dsthost", "h")]]
      (fun h => ((by decide :
        List.Perm ["8.8.8.8", "1.1.1.1"] ["1.1.1.1", "8.8.8.8"]) :
        OptPerm (some ["8.8.8.8", "1.1.1.1"]) (some ["1.1.1.1", "8.8.8.8"])))).1

/-! ## C1: flush-and-refill leaves exactly the translated rules -/

theorem kupd_same (k : Kern) (c : String) (v : Option (List String)) :
    kupd k c v c = v := by
  unfold kupd
  rw [if_pos rfl]

theorem kern_setKern (st : WState) (family : Nat) (k : Kern) :
    (st.setKern family k).kern family = k := by
  unfold WState.kern WState.setKern
  cases h : family == 6 <;> simp [h]

/-- A successful nft flush-and-refill leaves exactly the new rules in
the chain. -/
theorem nftApplyStep_kern {st1 : WState} {chain : String} {family : Nat}
    {rl : List String} (st2 : WState)
    (h : nftApplyStep st1 chain family rl = (st2, none)) :
    st2.kern family chain = some rl := by
  unfold nftApplyStep at h
  cases hk : st1.kern family chain with
  | none =>
    simp only [hk] at h
    injection h with h1 h2
    cases h2
  | some cur =>
    simp only [hk] at h
    injection h with h1 h2
    rw [← h1, kern_setKern, kupd_same]

/-- Streaming -A entries for a single chain appends them, in order, to
that chain. -/
theorem iptRestore_append (chain : String) (specs : List String) (k : Kern)
    (init : List String) (hk : k chain = some init) :
    ∃ k2, iptRestore (specs.map (fun s => (chain, s))) k = some k2
      ∧ k2 chain = some (init ++ specs) := by
  induction specs generalizing k init with
  | nil =>
    refine ⟨k, rfl, ?_⟩
    simpa using hk
  | cons s ss ih =>
    have hstep : kupd k chain (some (init ++ [s])) chain = some (init ++ [s]) :=
      kupd_same k chain _
    rcases ih (kupd k chain (some (init ++ [s]))) (init ++ [s]) hstep with
      ⟨k2, h1, h2⟩
    refine ⟨k2, ?_, ?_⟩
    · simp only [List.map_cons, iptRestore, hk]
      exact h1
    · rw [h2]
      simp [List.append_assoc]

/-- Every rule list whose only rule is the synthetic policy rule
translates, on the legacy backend, to the single terminal verdict
line. -/
theorem iptRuleSpecs_policy (dns : List String)
    (resolve : String → Option (List String)) (family : Nat) (p : String) :
    iptRuleSpecs dns resolve family [[("action", p)]]
      = .ok [" -j " ++ upperStr p] := rfl

/-- The same on the modern backend. -/
theorem nftRules_policy (enumSet : List String → List String)
    (dns : List String) (resolve : String → Option (List String))
    (family : Nat) (p : String) :
    nftRules enumSet dns resolve family [[("action", p)]]
      = .ok [" " ++ p] := rfl

theorem iptRuleSpecs_append (dns : List String)
    (resolve : String → Option (List String)) (family : Nat)
    (xs ys : List Rule) (s1 s2 : List String)
    (h1 : iptRuleSpecs dns resolve family xs = .ok s1)
    (h2 : iptRuleSpecs dns resolve family ys = .ok s2) :
    iptRuleSpecs dns resolve family (xs ++ ys) = .ok (s1 ++ s2) := by
  induction xs generalizing s1 with
  | nil =>
    cases h1
    simpa using h2
  | cons r rs ih =>
    unfold iptRuleSpecs at h1
    cases hp : iptRuleParts dns resolve family r with
    | error e =>
      rw [hp] at h1
      cases h1
    | ok parts =>
      rw [hp] at h1
      cases parts with
      | none =>
        replace h1 : (match iptRuleSpecs dns resolve family rs with
            | Except.error e => Except.error e
            | Except.ok rest => Except.ok rest) = Except.ok s1 := h1
        cases hrs : iptRuleSpecs dns resolve family rs with
        | error e =>
          rw [hrs] at h1
          cases h1
        | ok rest =>
          rw [hrs] at h1
          cases h1
          have hrec := ih _ hrs
          simp only [List.cons_append, iptRuleSpecs, hp, List.append_eq, hrec]
      | some p =>
        replace h1 : (match iptEmitRule r p with
            | Except.error e => Except.error e
            | Except.ok lines =>
              match iptRuleSpecs dns resolve family rs with
              | Except.error e => Except.error e
              | Except.ok rest => Except.ok (lines ++ rest))
            = Except.ok s1 := h1
        cases hl : iptEmitRule r p with
        | error e =>
          rw [hl] at h1
          cases h1
        | ok lines =>
          rw [hl] at h1
          cases hrs : iptRuleSpecs dns resolve family rs with
          | error e =>
            rw [hrs] at h1
            cases h1
          | ok rest =>
            rw [hrs] at h1
            cases h1
            have hrec := ih _ hrs
            simp only [List.cons_append, iptRuleSpecs, hp, hl, List.append_eq,
              hrec, List.append_assoc]

theorem nftRules_append (enumSet : List String → List String)
    (dns : List String) (resolve : String → Option (List String))
    (family : Nat) (xs ys : List Rule) (s1 s2 : List String)
    (h1 : nftRules enumSet dns resolve family xs = .ok s1)
    (h2 : nftRules enumSet dns resolve family ys = .ok s2) :
    nftRules enumSet dns resolve family (xs ++ ys) = .ok (s1 ++ s2) := by
  induction xs generalizing s1 with
  | nil =>
    cases h1
    simpa using h2
  | cons r rs ih =>
    unfold nftRules at h1
    cases hp : nftRuleLines enumSet dns resolve family r with
    | error e =>
      rw [hp] at h1
      cases h1
    | ok lines =>
      rw [hp] at h1
      cases hrs : nftRules enumSet dns resolve family rs with
      | error e =>
        rw [hrs] at h1
        cases h1
      | ok rest =>
        rw [hrs] at h1
        cases h1
        have hrec := ih _ hrs
        simp only [List.cons_append, nftRules, hp, List.append_eq, hrec,
          List.append_assoc]

/-- C1: after a successful apply_rules_family, the kernel chain for the
source address holds exactly the translated specifications, whatever
its earlier contents (both backends flush and refill); handle_addr with
a successful apply finishes in exactly the state the apply produced;
and for a parsed rule list rs ++ [{action: policy}] the translation is
the translated rules followed by the terminal policy verdict. -/
theorem apply_rules_chain_exact (dns : List String)
    (resolve : String → Option (List String))
    (enumSet : List String → List String) (st : WState) (source : String)
    (rules : List Rule) (family : Nat) :
    (∀ specs st2, iptRuleSpecs dns resolve family rules = .ok specs →
      iptApplyRulesFamily dns resolve st source rules family = (st2, none) →
      st2.kern family (iptChainForAddr source) = some specs)
    ∧ (∀ rl st2, nftRules enumSet dns resolve family rules = .ok rl →
      nftApplyRulesFamily enumSet dns resolve st source rules family
        = (st2, none) →
      st2.kern family (nftChainForAddr source) = some rl)
    ∧ (∀ {σ : Type} (applyFn : σ → List Rule → σ × Option FwError) (s s1 : σ),
      applyFn s rules = (s1, none) →
      handle_addr applyFn (.ok rules) s = (s1, none))
    ∧ (∀ rs p s0, rules = rs ++ [[("action", p)]] →
      iptRuleSpecs dns resolve family rs = .ok s0 →
      iptRuleSpecs dns resolve family rules
        = .ok (s0 ++ [" -j " ++ upperStr p]))
    ∧ (∀ rs p l0, rules = rs ++ [[("action", p)]] →
      nftRules enumSet dns resolve family rs = .ok l0 →
      nftRules enumSet dns resolve family rules = .ok (l0 ++ [" " ++ p])) := by
  refine ⟨?_, ?_, ?_, ?_, ?_⟩
  · intro specs st2 hspec happly
    simp only [iptApplyRulesFamily] at happly
    rcases hcc : (if (st.chains family).contains (iptChainForAddr source)
        then (st, (none : Option FwError))
        else iptCreateChain st source (iptChainForAddr source) family) with
      ⟨st1, oe⟩
    rw [hcc] at happly
    cases oe with
    | some e => cases happly
    | none =>
      rw [hspec] at happly
      cases hk : st1.kern family (iptChainForAddr source) with
      | none =>
        simp [hk] at happly
      | some init =>
        rcases iptRestore_append (iptChainForAddr source) specs
            (kupd (st1.kern family) (iptChainForAddr source) (some []))
            [] (kupd_same _ _ _) with ⟨k2, hre, hchain⟩
        simp only [hk, hre] at happly
        injection happly with h1 h2
        rw [← h1, kern_setKern, hchain]
        simp
  · intro rl st2 hrl happly
    simp only [nftApplyRulesFamily] at happly
    rw [hrl] at happly
    exact nftApplyStep_kern st2 happly
  · intro σ applyFn s s1 h
    simp only [handle_addr, h]
  · intro rs p s0 hru hs0
    rw [hru]
    exact iptRuleSpecs_append dns resolve family rs [[("action", p)]] s0
      [" -j " ++ upperStr p] hs0 (iptRuleSpecs_policy dns resolve family p)
  · intro rs p l0 hru hl0
    rw [hru]
    exact nftRules_append enumSet dns resolve family rs [[("action", p)]] l0
      [" " ++ p] hl0 (nftRules_policy enumSet dns resolve family p)

/-- C1 witness: a concrete run from a fresh state: rules parse to one
accept line plus the terminal drop, the apply succeeds, and the chain
holds exactly those two specifications. -/
theorem apply_rules_chain_exact_witness :
    ((iptApplyRulesFamily [] (fun _ => none) st0 "10.137.0.5"
        [[("action", "accept"), ("proto", "tcp")], [("action", "drop")]]
        4).1).kern 4 (iptChainForAddr "10.137.0.5")
      = some [" -p tcp -j ACCEPT", " -j DROP"] := by
  have h := (apply_rules_chain_exact [] (fun _ => none) id st0 "10.137.0.5"
      [[("action", "accept"), ("proto", "tcp")], [("action", "drop")]] 4).1
      [" -p tcp -j ACCEPT", " -j DROP"]
      ((iptApplyRulesFamily [] (fun _ => none) st0 "10.137.0.5"
        [[("action", "accept"), ("proto", "tcp")], [("action", "drop")]]
        4).1)
      rfl rfl
  exact h

end QubesFirewall
